import Mathlib

/-
Verification of the chronus meta-client and hinted-handoff processor.

The Go source under verification is services/meta/store.go (meta Client)
together with the hinted-handoff NodeProcessor from the same repository.
Pure Go functions become Lean functions; the stateful Client becomes
explicit state passing on a ClientState record.  Machine integers are
modelled as Nat (uint64 counters never overflow in the scenarios at hand;
where width matters, as in the 8-byte wire codec, the bound 2 ^ 64 is
explicit in the statements).  Fallible Go functions returning (T, error)
become Except String T, with the error strings mirroring the Go error
values.  Clock reads, the disk hook (a no-op in the source), locking and
goroutines are erased: every operation is a function of the state.
-/

namespace Chronus

/-! ## Error values mirroring the Go error variables. -/

def ErrNodeNotFound : String := "no data node found"

def ErrNodeExists : String := "data node already exists"

def ErrDatabaseNotFound : String := "database not found"

def ErrRetentionPolicyNotFound : String := "retention policy not found"

def ErrRetentionPolicyExists : String := "retention policy already exists"

def ErrRetentionPolicyDurationTooLow : String := "retention policy duration must be at least 1h0m0s"

def ErrUserNotFound : String := "user not found"

def ErrUserExists : String := "user already exists"

def ErrAuthenticate : String := "authentication failed"

def ErrShardGroupExists : String := "shard group already exists"

/-- Modelled from io.EOF of the Go standard library. -/
def ioEOF : String := "EOF"

/-! ## Metadata snapshot (the Data aggregate).

The repository defines its Data type (wrapping the upstream meta.Data and
adding Clone, CreateShardGroup, user and node mutations) outside the
provided source file; only its callers live in store.go.  The definitions
below are therefore modelled from the specification, sections 3.1 and 4.1,
and carry doc comments saying so.  Times are nanoseconds since the epoch,
as Nat; a zero DeletedAt means the shard group is live. -/

structure UserInfo where
  name : String
  hash : String
  admin : Bool
  deriving Repr, DecidableEq

structure ShardInfo where
  id : Nat
  owners : List Nat
  deriving Repr, DecidableEq

structure ShardGroupInfo where
  id : Nat
  startTime : Nat
  endTime : Nat
  deletedAt : Nat
  shards : List ShardInfo
  deriving Repr, DecidableEq

/-- Modelled from the spec: a shard group is deleted iff DeletedAt is non-zero. -/
def ShardGroupInfo.Deleted (g : ShardGroupInfo) : Bool :=
  g.deletedAt != 0

structure RetentionPolicyInfo where
  name : String
  duration : Nat
  shardGroupDuration : Nat
  replicaN : Nat
  shardGroups : List ShardGroupInfo
  deriving Repr, DecidableEq

structure DatabaseInfo where
  name : String
  defaultRetentionPolicy : String
  retentionPolicies : List RetentionPolicyInfo
  deriving Repr, DecidableEq

structure NodeInfo where
  id : Nat
  host : String
  tcpHost : String
  frozen : Bool
  deriving Repr, DecidableEq

structure Data where
  index : Nat
  clusterID : Nat
  maxNodeID : Nat
  maxShardGroupID : Nat
  maxShardID : Nat
  databases : List DatabaseInfo
  dataNodes : List NodeInfo
  users : List UserInfo
  deriving Repr, DecidableEq

/-- Modelled from the spec: Clone is a deep copy; on pure values it is the
identity. -/
def Data.Clone (d : Data) : Data := d

/-- Modelled from the spec: Database returns the database with the given
name, or nothing. -/
def Data.database (d : Data) (name : String) : Option DatabaseInfo :=
  d.databases.find? (fun di => di.name == name)

/-- Lookup of a retention policy by database and policy name. -/
def Data.lookupRP (d : Data) (db rp : String) : Option RetentionPolicyInfo :=
  match d.database db with
  | none => none
  | some di => di.retentionPolicies.find? (fun r => r.name == rp)

/-- Modelled from the spec: RetentionPolicy errors when the database does
not exist and otherwise returns the policy with the given name, if any. -/
def Data.RetentionPolicy (d : Data) (db rp : String) :
    Except String (Option RetentionPolicyInfo) :=
  match d.database db with
  | none => .error ErrDatabaseNotFound
  | some di => .ok (di.retentionPolicies.find? (fun r => r.name == rp))

/-- Modelled from the spec, section 3.1: a deleted group is invisible to
time-range queries, and a group contains a timestamp t iff
StartTime le t and t lt EndTime. -/
def RetentionPolicyInfo.ShardGroupByTimestamp (rp : RetentionPolicyInfo) (ts : Nat) :
    Option ShardGroupInfo :=
  rp.shardGroups.find? (fun g =>
    !g.Deleted && decide (g.startTime ≤ ts) && decide (ts < g.endTime))

/-- Modelled from the spec: lookup of the covering live shard group of a
timestamp under a database and retention policy. -/
def Data.ShardGroupByTimestamp (d : Data) (db rp : String) (ts : Nat) :
    Option ShardGroupInfo :=
  match d.lookupRP db rp with
  | none => none
  | some rpi => rpi.ShardGroupByTimestamp ts

/-- Replace the retention policy named rp of the database named db by
applying f to it, leaving everything else unchanged. -/
def Data.updateRP (d : Data) (db rp : String) (f : RetentionPolicyInfo → RetentionPolicyInfo) :
    Data :=
  { d with databases := d.databases.map (fun di =>
      if di.name == db then
        { di with retentionPolicies := di.retentionPolicies.map (fun r =>
            if r.name == rp then f r else r) }
      else di) }

/-- Insertion of a shard group maintaining start-time order, per spec
section 4.1. -/
def insertByStart (g : ShardGroupInfo) : List ShardGroupInfo → List ShardGroupInfo
  | [] => [g]
  | h :: t => if g.startTime < h.startTime then g :: h :: t else h :: insertByStart g t

/-- The shard group allocated by CreateShardGroup: interval aligned to
the ShardGroupDuration of the policy, fresh group and shard ids from the
monotonic counters, owners drawn from the non-frozen data nodes ordered
by node id up to ReplicaN. -/
def newShardGroup (d : Data) (rp : RetentionPolicyInfo) (ts : Nat) : ShardGroupInfo :=
  { id := d.maxShardGroupID + 1,
    startTime := ts / rp.shardGroupDuration * rp.shardGroupDuration,
    endTime := ts / rp.shardGroupDuration * rp.shardGroupDuration + rp.shardGroupDuration,
    deletedAt := 0,
    shards := [{ id := d.maxShardID + 1,
                 owners := (List.insertionSort (· ≤ ·)
                   ((d.dataNodes.filter (fun n => !n.frozen)).map
                     (fun n => n.id))).take rp.replicaN }] }

/-- The snapshot produced by a successful CreateShardGroup: the new group
inserted in start-time order into the policy, and the id counters
advanced. -/
def createdData (d : Data) (db rpN : String) (rp : RetentionPolicyInfo) (ts : Nat) : Data :=
  { (d.updateRP db rpN (fun r =>
      { r with shardGroups := insertByStart (newShardGroup d rp ts) r.shardGroups })) with
    maxShardGroupID := d.maxShardGroupID + 1, maxShardID := d.maxShardID + 1 }

/-- Modelled from the spec, section 4.1: CreateShardGroup fails if a live
group already covers the timestamp; otherwise it allocates the aligned
successor group with fresh ids and owners and inserts it maintaining
start-time order. -/
def Data.CreateShardGroup (d : Data) (db rp : String) (ts : Nat) : Except String Data :=
  match d.lookupRP db rp with
  | none => .error ErrRetentionPolicyNotFound
  | some rpi =>
    if (rpi.ShardGroupByTimestamp ts).isSome then .error ErrShardGroupExists
    else .ok (createdData d db rp rpi ts)

/-- Modelled from the spec: CreateDataNode rejects a duplicate TCP address
and otherwise appends a fresh node. -/
def Data.CreateDataNode (d : Data) (host tcpHost : String) : Except String Data :=
  if d.dataNodes.any (fun n => n.tcpHost == tcpHost) then .error ErrNodeExists
  else
    let id := d.maxNodeID + 1
    .ok { d with maxNodeID := id,
                 dataNodes := d.dataNodes ++ [{ id := id, host := host, tcpHost := tcpHost, frozen := false }] }

/-- Modelled from the spec: DeleteDataNode errors when the node is absent
and otherwise removes it. -/
def Data.DeleteDataNode (d : Data) (id : Nat) : Except String Data :=
  if d.dataNodes.any (fun n => n.id == id) then
    .ok { d with dataNodes := d.dataNodes.filter (fun n => n.id != id) }
  else .error ErrNodeNotFound

/-- Modelled from the spec: CreateDatabase rejects a duplicate name and
otherwise appends a database with no policies. -/
def Data.CreateDatabase (d : Data) (name : String) : Except String Data :=
  if (d.database name).isSome then .error "database already exists"
  else .ok { d with databases := d.databases ++
      [{ name := name, defaultRetentionPolicy := "", retentionPolicies := [] }] }

/-- Modelled from the spec: DropDatabase errors when the database is
absent and otherwise removes it. -/
def Data.DropDatabase (d : Data) (name : String) : Except String Data :=
  if (d.database name).isSome then
    .ok { d with databases := d.databases.filter (fun di => di.name != name) }
  else .error ErrDatabaseNotFound

/-- Modelled from the spec: CreateRetentionPolicy requires the database to
exist, errors on a conflicting existing policy, is a no-op for an
identical existing policy, and otherwise appends the policy, making it the
default when requested. -/
def Data.CreateRetentionPolicy (d : Data) (db : String) (rp : RetentionPolicyInfo)
    (makeDefault : Bool) : Except String Data :=
  match d.database db with
  | none => .error ErrDatabaseNotFound
  | some di =>
    match di.retentionPolicies.find? (fun r => r.name == rp.name) with
    | some existing =>
      if existing == rp then .ok d else .error ErrRetentionPolicyExists
    | none =>
      let di1 := { di with
        retentionPolicies := di.retentionPolicies ++ [rp],
        defaultRetentionPolicy := if makeDefault then rp.name else di.defaultRetentionPolicy }
      .ok { d with databases := d.databases.map (fun x => if x.name == db then di1 else x) }

/-- Modelled from the spec: DropRetentionPolicy errors when the database
or the policy is absent and otherwise removes the policy. -/
def Data.DropRetentionPolicy (d : Data) (db rp : String) : Except String Data :=
  match d.database db with
  | none => .error ErrDatabaseNotFound
  | some di =>
    if (di.retentionPolicies.find? (fun r => r.name == rp)).isSome then
      .ok { d with databases := d.databases.map (fun x =>
        if x.name == db then
          { x with retentionPolicies := x.retentionPolicies.filter (fun r => r.name != rp) }
        else x) }
    else .error ErrRetentionPolicyNotFound

/-- Modelled from the spec: CreateUser rejects a duplicate name and
otherwise appends the user. -/
def Data.CreateUser (d : Data) (name hash : String) (admin : Bool) : Except String Data :=
  if d.users.any (fun u => u.name == name) then .error ErrUserExists
  else .ok { d with users := d.users ++ [{ name := name, hash := hash, admin := admin }] }

/-- Modelled from the spec: UpdateUser errors when the user is absent and
otherwise replaces the stored password hash. -/
def Data.UpdateUser (d : Data) (name hash : String) : Except String Data :=
  if d.users.any (fun u => u.name == name) then
    .ok { d with users := d.users.map (fun u => if u.name == name then { u with hash := hash } else u) }
  else .error ErrUserNotFound

/-- Modelled from the spec: DropUser errors when the user is absent and
otherwise removes it. -/
def Data.DropUser (d : Data) (name : String) : Except String Data :=
  if d.users.any (fun u => u.name == name) then
    .ok { d with users := d.users.filter (fun u => u.name != name) }
  else .error ErrUserNotFound

/-! ## The meta Client. -/

/-- Modelled external crypto: the salted SHA256 digest of the auth cache
is represented injectively by the pair of the salt and the password. -/
def hashWithSalt (salt : Nat) (password : String) : Nat × String :=
  (salt, password)

/-- Modelled external crypto: a bcrypt hash is an injective function of
the password, and bcrypt.CompareHashAndPassword succeeds exactly when the
stored hash equals the hash of the presented password. -/
def bcryptOf (password : String) : String :=
  String.mk (Char.ofNat 36 :: password.data)

structure AuthUser where
  bhash : String
  salt : Nat
  hash : Nat × String
  deriving Repr, DecidableEq

/-- State of the meta Client: the cached snapshot, the auth cache (an
association list standing for the Go map), the change-channel generation
(incremented whenever the changed channel is closed and replaced), and the
RetentionAutoCreate configuration flag. -/
structure Client where
  cacheData : Data
  authCache : List (String × AuthUser)
  changedGen : Nat
  retentionAutoCreate : Bool
  deriving Repr, DecidableEq

/-- Commit pipeline from store.go: increment the Index of the supplied
snapshot, invoke the persistence hook (a no-op returning nil in the
source), swap the snapshot in, and close-and-replace the changed channel.
Because the hook never fails, commit is total. -/
def Client.commit (c : Client) (data : Data) : Client :=
  { c with cacheData := { data with index := data.index + 1 },
           changedGen := c.changedGen + 1 }

/-- Client.SetData from store.go: reset the Index of the current cache to
zero, then run the commit pipeline on a clone of the supplied snapshot. -/
def Client.SetData (c : Client) (data : Data) : Except String Unit × Client :=
  let c1 := { c with cacheData := { c.cacheData with index := 0 } }
  (.ok (), Client.commit c1 data.Clone)

/-! ## HH processor statistics (source lines around NodeProcessor.Statistics). -/

structure NodeProcessorStatistics where
  WriteShardReq : Int
  WriteShardReqPoints : Int
  WriteNodeReq : Int
  WriteNodeReqFail : Int
  WriteNodeReqPoints : Int
  deriving Repr, DecidableEq

/-- The Values map built by NodeProcessor.Statistics in the source, as an
association list from statistic key to exported value.  The last entry
reproduces the source exactly: the writeNodeReqPoints key is populated
from the WriteShardReqPoints counter. -/
def NodeProcessor.StatisticsValues (s : NodeProcessorStatistics) : List (String × Int) :=
  [ ("writeShardReq", s.WriteShardReq),
    ("writeShardReqPoints", s.WriteShardReqPoints),
    ("writeNodeReq", s.WriteNodeReq),
    ("writeNodeReqFail", s.WriteNodeReqFail),
    ("writeNodeReqPoints", s.WriteShardReqPoints) ]

/-! ## Meta Client operations translated from store.go. -/

/-- Client.user from the source: scan the cached users; on a hit return
the user with a nil error, otherwise a nil user with ErrUserNotFound.
Both components of the Go multiple return are kept so that the CreateUser
condition on them can be rendered exactly as written. -/
def Client.userGo (c : Client) (name : String) : Option UserInfo × Option String :=
  match c.cacheData.users.find? (fun u => u.name == name) with
  | some u => (some u, none)
  | none => (none, some ErrUserNotFound)

/-- Client.CreateUser from the source.  The existence branch reproduces
the Go condition literally: it is entered only when both the returned
error and the returned user are non-nil, a combination Client.user never
produces, so every duplicate falls through to Data.CreateUser. -/
def Client.CreateUser (c : Client) (name hashedPassword : String) (admin : Bool) :
    Except String UserInfo × Client :=
  let data := c.cacheData.Clone
  match c.userGo name with
  | (some info, some _) =>
    if info.hash != hashedPassword || info.admin != admin then
      (.error ErrUserExists, c)
    else (.ok info, c)
  | _ =>
    match data.CreateUser name hashedPassword admin with
    | .error e => (.error e, c)
    | .ok data1 =>
      let c1 := c.commit data1
      match c1.userGo name with
      | (some u, _) => (.ok u, c1)
      | _ => (.error ErrUserNotFound, c1)

/-- Deletion from the auth cache, the association-list rendering of the
Go map delete. -/
def cacheErase (l : List (String × AuthUser)) (k : String) : List (String × AuthUser) :=
  l.filter (fun e => e.1 != k)

/-- Store into the auth cache, the association-list rendering of the Go
map assignment. -/
def cacheInsert (l : List (String × AuthUser)) (k : String) (v : AuthUser) :
    List (String × AuthUser) :=
  (k, v) :: l.filter (fun e => e.1 != k)

/-- Client.UpdateUser from the source: mutate the clone, delete the auth
cache entry of the user (a deferred delete in the source; the commit
never fails, so performing the deletion before the commit yields the same
state), and commit. -/
def Client.UpdateUser (c : Client) (name hashedPassword : String) :
    Except String Unit × Client :=
  let data := c.cacheData.Clone
  match data.UpdateUser name hashedPassword with
  | .error e => (.error e, c)
  | .ok data1 =>
    let c1 := { c with authCache := cacheErase c.authCache name }
    (.ok (), c1.commit data1)

/-- Client.DropUser from the source, with the same deferred cache
invalidation as UpdateUser. -/
def Client.DropUser (c : Client) (name : String) : Except String Unit × Client :=
  let data := c.cacheData.Clone
  match data.DropUser name with
  | .error e => (.error e, c)
  | .ok data1 =>
    let c1 := { c with authCache := cacheErase c.authCache name }
    (.ok (), c1.commit data1)

/-- Client.Authenticate from the source: find the user, try the salted
fast-path against the cache entry, fall back to the bcrypt comparison,
and on a bcrypt success store a fresh cache entry under a new random salt
(the salt enters as the parameter newSalt, standing for the crypto
RNG). -/
def Client.Authenticate (c : Client) (username password : String) (newSalt : Nat) :
    Except String UserInfo × Client :=
  match c.userGo username with
  | (_, some e) => (.error e, c)
  | (none, none) => (.error ErrUserNotFound, c)
  | (some userInfo, none) =>
    let hit :=
      match List.lookup username c.authCache with
      | some au => decide (hashWithSalt au.salt password = au.hash)
      | none => false
    if hit then (.ok userInfo, c)
    else if decide (bcryptOf password = userInfo.hash) then
      (.ok userInfo,
        { c with authCache := (cacheInsert c.authCache username
            { bhash := userInfo.hash, salt := newSalt, hash := hashWithSalt newSalt password }) })
    else (.error ErrAuthenticate, c)

/-- Client.DataNodeByTCPHost from the source. -/
def Client.DataNodeByTCPHost (c : Client) (tcpAddr : String) : Except String NodeInfo :=
  match c.cacheData.dataNodes.find? (fun n => n.tcpHost == tcpAddr) with
  | some n => .ok n
  | none => .error ErrNodeNotFound

/-- Client.CreateDataNode from the source: unlike every other mutation it
applies Data.CreateDataNode to the cached snapshot itself (no clone),
resolves the created node by TCP host, and commits the cache in place. -/
def Client.CreateDataNode (c : Client) (httpAddr tcpAddr : String) :
    Except String NodeInfo × Client :=
  match c.cacheData.CreateDataNode httpAddr tcpAddr with
  | .error e => (.error e, c)
  | .ok data1 =>
    let c1 := { c with cacheData := data1 }
    match c1.DataNodeByTCPHost tcpAddr with
    | .error e => (.error e, c1)
    | .ok n => (.ok n, c1.commit c1.cacheData)

/-- Client.DeleteDataNode from the source. -/
def Client.DeleteDataNode (c : Client) (id : Nat) : Except String Unit × Client :=
  let data := c.cacheData.Clone
  match data.DeleteDataNode id with
  | .error e => (.error e, c)
  | .ok data1 => (.ok (), c.commit data1)

/-- Modelled from the spec: the default retention policy auto-created by
CreateDatabase under RetentionAutoCreate, named autogen, infinite
duration, one replica, seven-day shard groups. -/
def DefaultRetentionPolicyInfo : RetentionPolicyInfo :=
  { name := "autogen", duration := 0, shardGroupDuration := 604800000000000,
    replicaN := 1, shardGroups := [] }

/-- Client.CreateDatabase from the source: return an existing database
without committing; otherwise create it on the clone, auto-create the
default retention policy when configured, and commit once. -/
def Client.CreateDatabase (c : Client) (name : String) :
    Except String (Option DatabaseInfo) × Client :=
  let data := c.cacheData.Clone
  match data.database name with
  | some db => (.ok (some db), c)
  | none =>
    match data.CreateDatabase name with
    | .error e => (.error e, c)
    | .ok data1 =>
      match (if c.retentionAutoCreate then
               data1.CreateRetentionPolicy name DefaultRetentionPolicyInfo true
             else .ok data1) with
      | .error e => (.error e, c)
      | .ok data2 => (.ok (data2.database name), c.commit data2)

/-- Client.DropDatabase from the source. -/
def Client.DropDatabase (c : Client) (name : String) : Except String Unit × Client :=
  let data := c.cacheData.Clone
  match data.DropDatabase name with
  | .error e => (.error e, c)
  | .ok data1 => (.ok (), c.commit data1)

/-- The minimum retention policy duration of the upstream meta package,
one hour in nanoseconds. -/
def MinRetentionPolicyDuration : Nat := 3600000000000

/-- Client.CreateRetentionPolicy from the source: validate the requested
duration (a nil duration skips the check, a zero duration means
infinite), build the policy from the spec fields, create it on the clone
and commit. -/
def Client.CreateRetentionPolicy (c : Client) (database : String) (specDuration : Option Nat)
    (name : String) (sgDuration replicaN : Nat) (makeDefault : Bool) :
    Except String RetentionPolicyInfo × Client :=
  let data := c.cacheData.Clone
  if (match specDuration with
      | some dur => decide (dur < MinRetentionPolicyDuration) && (dur != 0)
      | none => false) then
    (.error ErrRetentionPolicyDurationTooLow, c)
  else
    let rp : RetentionPolicyInfo :=
      { name := name, duration := specDuration.getD 0, shardGroupDuration := sgDuration,
        replicaN := replicaN, shardGroups := [] }
    match data.CreateRetentionPolicy database rp makeDefault with
    | .error e => (.error e, c)
    | .ok data1 => (.ok rp, c.commit data1)

/-- Client.DropRetentionPolicy from the source. -/
def Client.DropRetentionPolicy (c : Client) (database name : String) :
    Except String Unit × Client :=
  let data := c.cacheData.Clone
  match data.DropRetentionPolicy database name with
  | .error e => (.error e, c)
  | .ok data1 => (.ok (), c.commit data1)

/-! ## The mutation operations as a single type, for the atomicity claim. -/

inductive MutationOp where
  | createDataNode (httpAddr tcpAddr : String)
  | deleteDataNode (id : Nat)
  | createDatabase (name : String)
  | dropDatabase (name : String)
  | createRetentionPolicy (database : String) (specDuration : Option Nat) (name : String)
      (sgDuration replicaN : Nat) (makeDefault : Bool)
  | dropRetentionPolicy (database name : String)
  | createUser (name hash : String) (admin : Bool)
  | updateUser (name hash : String)
  | dropUser (name : String)
  deriving Repr, DecidableEq

/-- Forget the success payload of a client operation, keeping the error
and the post state. -/
def toUnit {α : Type} (r : Except String α × Client) : Except String Unit × Client :=
  match r.1 with
  | .error e => (.error e, r.2)
  | .ok _ => (.ok (), r.2)

/-- Dispatch a mutation operation on the client. -/
def applyMutation (op : MutationOp) (c : Client) : Except String Unit × Client :=
  match op with
  | .createDataNode h t => toUnit (c.CreateDataNode h t)
  | .deleteDataNode id => toUnit (c.DeleteDataNode id)
  | .createDatabase n => toUnit (c.CreateDatabase n)
  | .dropDatabase n => toUnit (c.DropDatabase n)
  | .createRetentionPolicy db sd n sg rn mk => toUnit (c.CreateRetentionPolicy db sd n sg rn mk)
  | .dropRetentionPolicy db n => toUnit (c.DropRetentionPolicy db n)
  | .createUser n h a => toUnit (c.CreateUser n h a)
  | .updateUser n h => toUnit (c.UpdateUser n h)
  | .dropUser n => toUnit (c.DropUser n)

/-! ## Shard group precreation (PrecreateShardGroups). -/

/-- The createShardGroup helper from store.go: reject when a live group
already covers the timestamp, create the group on the snapshot, and
re-resolve the policy and the covering group (the source returns the
possibly-nil group pointer together with a nil error). -/
def createShardGroup (data : Data) (db rp : String) (ts : Nat) :
    Except String (Option ShardGroupInfo × Data) :=
  if (data.ShardGroupByTimestamp db rp ts).isSome then .error ErrShardGroupExists
  else
    match data.CreateShardGroup db rp ts with
    | .error e => .error e
    | .ok data1 =>
      match data1.RetentionPolicy db rp with
      | .error e => .error e
      | .ok none => .error "retention policy deleted after shard group created"
      | .ok (some rpi) => .ok (rpi.ShardGroupByTimestamp ts, data1)

/-- One iteration of the PrecreateShardGroups loop body, for one database
name and one retention policy value from the range copy, threading the
evolving snapshot and the changed flag.  A createShardGroup failure is
logged and skipped by the source, leaving the accumulator unchanged. -/
def precreateStep (tFrom tTo : Nat) (acc : Data × Bool) (dbName : String)
    (rp : RetentionPolicyInfo) : Data × Bool :=
  match rp.shardGroups.getLast? with
  | none => acc
  | some g =>
    if !g.Deleted && decide (g.endTime < tTo) && decide (tFrom < g.endTime) then
      if (acc.1.ShardGroupByTimestamp dbName rp.name (g.endTime + 1)).isSome then acc
      else
        match createShardGroup acc.1 dbName rp.name (g.endTime + 1) with
        | .error _ => acc
        | .ok (_, data1) => (data1, true)
    else acc

/-- Client.PrecreateShardGroups from store.go.  The Go range loops copy
each database and policy element, so the control structure is the
original snapshot while lookups and creations act on the evolving clone;
the embedding folds over the original lists accordingly (coinciding with
the in-place Go semantics whenever names are unique, the snapshot
invariant).  One commit at the end iff anything was created; the source
returns only the commit error, which is always nil. -/
def Client.PrecreateShardGroups (c : Client) (tFrom tTo : Nat) : Client :=
  let data0 := c.cacheData.Clone
  let res := data0.databases.foldl
    (fun acc di => di.retentionPolicies.foldl
      (fun a r => precreateStep tFrom tTo a di.name r) acc)
    (data0, false)
  if res.2 then c.commit res.1 else c

/-- The per-policy creation condition of the precreation claim: the
policy has a chronologically last group g, g is live, its end time lies
strictly between the two bounds, and no live group of the policy covers
the timestamp one nanosecond past that end time. -/
def condB (rp : RetentionPolicyInfo) (tFrom tTo : Nat) : Bool :=
  match rp.shardGroups.getLast? with
  | none => false
  | some g =>
    !g.Deleted && decide (g.endTime < tTo) && decide (tFrom < g.endTime)
      && !(rp.ShardGroupByTimestamp (g.endTime + 1)).isSome

/-- Snapshot well-formedness for the precreation theorem: database names
are unique, policy names are unique within each database, and every
policy has a positive shard group duration (the spec enforces a minimum
retention duration, and group durations are positive). -/
def wfData (d : Data) : Prop :=
  (d.databases.map DatabaseInfo.name).Nodup ∧
  ∀ di ∈ d.databases,
    (di.retentionPolicies.map RetentionPolicyInfo.name).Nodup ∧
    ∀ rp ∈ di.retentionPolicies, 0 < rp.shardGroupDuration

/-- The outcome the precreation claim asserts: every policy of the
pre-state gains exactly one live successor group covering the timestamp
one nanosecond past the end of its last group when the condition holds,
and is untouched otherwise; and the snapshot Index advances by exactly
one iff at least one group was created (a single commit for all
creations), staying unchanged otherwise. -/
def PrecreateOutcome (c : Client) (tFrom tTo : Nat) : Prop :=
  (∀ di ∈ c.cacheData.databases, ∀ rp ∈ di.retentionPolicies,
    ∃ rp1, (c.PrecreateShardGroups tFrom tTo).cacheData.lookupRP di.name rp.name = some rp1 ∧
      (if condB rp tFrom tTo then
        ∃ g newG, rp.shardGroups.getLast? = some g ∧
          newG.deletedAt = 0 ∧
          newG.startTime ≤ g.endTime + 1 ∧ g.endTime + 1 < newG.endTime ∧
          rp1.shardGroups = insertByStart newG rp.shardGroups
       else rp1.shardGroups = rp.shardGroups)) ∧
  (c.PrecreateShardGroups tFrom tTo).cacheData.index =
    (if c.cacheData.databases.any (fun di =>
        di.retentionPolicies.any (fun rp => condB rp tFrom tTo))
     then c.cacheData.index + 1 else c.cacheData.index)

/-- Reachability invariant of the auth cache for one username: every
cache entry was produced by a successful past authentication against the
currently stored bcrypt hash — its bhash equals the stored hash of the
user, and its salted digest is the digest of some password that the
stored bcrypt hash verifies.  Entries are created only by Authenticate on
bcrypt success and are invalidated by UpdateUser and DropUser, so every
reachable client state satisfies this. -/
def cacheConsistent (c : Client) (username : String) : Prop :=
  ∀ au, List.lookup username c.authCache = some au →
    ∃ uinfo, c.userGo username = (some uinfo, none) ∧ au.bhash = uinfo.hash ∧
      ∃ p0, au.hash = hashWithSalt au.salt p0 ∧ bcryptOf p0 = au.bhash

/-! ## HH wire codec (marshalWrite / unmarshalWrite). -/

/-- Modelled from the influxdb models package: a point is represented by
its line-protocol serialization, the byte sequence the String method of
the point produces. -/
structure Point where
  text : List Nat
  deriving Repr, DecidableEq

/-- The 8-byte big-endian encoding written by binary.BigEndian.PutUint64;
each entry is one byte. -/
def toBE8 (n : Nat) : List Nat :=
  [n / 2 ^ 56 % 256, n / 2 ^ 48 % 256, n / 2 ^ 40 % 256, n / 2 ^ 32 % 256,
   n / 2 ^ 24 % 256, n / 2 ^ 16 % 256, n / 2 ^ 8 % 256, n % 256]

/-- The value read by binary.BigEndian.Uint64 from the first eight
bytes. -/
def fromBE8 (b : List Nat) : Nat :=
  match b with
  | b0 :: b1 :: b2 :: b3 :: b4 :: b5 :: b6 :: b7 :: _ =>
    ((((((b0 * 256 + b1) * 256 + b2) * 256 + b3) * 256 + b4) * 256 + b5) * 256 + b6) * 256 + b7
  | _ => 0

/-- Split a byte sequence at each newline byte. -/
def splitOnNl : List Nat → List (List Nat)
  | [] => [[]]
  | c :: rest =>
    if c = 10 then [] :: splitOnNl rest
    else
      match splitOnNl rest with
      | [] => [[c]]
      | h :: t => (c :: h) :: t

/-- Modelled from models.ParsePoints of the influxdb models package: the
payload is a newline-separated sequence of textual points, empty lines
are skipped, and each remaining line denotes the point whose
serialization it is.  Failures of the textual parser on malformed lines
are not modelled. -/
def ParsePoints (b : List Nat) : Except String (List Point) :=
  .ok (((splitOnNl b).filter (fun l => !l.isEmpty)).map (fun l => { text := l }))

/-- marshalWrite from the source: the 8-byte big-endian shard id followed
by each serialized point and a newline. -/
def marshalWrite (shardID : Nat) (points : List Point) : List Nat :=
  points.foldl (fun b p => b ++ p.text ++ [10]) (toBE8 shardID)

/-- unmarshalWrite from the source: frames shorter than eight bytes are
rejected with an explicit error; otherwise the first eight bytes decode
big-endian to the shard id and the remainder is parsed as points. -/
def unmarshalWrite (b : List Nat) : Except String (Nat × List Point) :=
  if b.length < 8 then .error ("too short: len = " ++ toString b.length)
  else
    match ParsePoints (b.drop 8) with
    | .error e => .error e
    | .ok points => .ok (fromBE8 (b.take 8), points)

/-! ## HH node processor. -/

/-- Outcome of the meta DataNode lookup behind NodeProcessor.Active: the
node was found, was not found (the lookup returned ErrNodeNotFound with a
nil node), or failed with some other error. -/
inductive DataNodeResp where
  | found
  | notFound
  | err (e : String)
  deriving Repr, DecidableEq

/-- NodeProcessor.Active from the source: a DataNode error other than
ErrNodeNotFound propagates; otherwise the processor is active iff the
node was found. -/
def NodeProcessor.ActiveResult (resp : DataNodeResp) : Except String Bool :=
  match resp with
  | .found => .ok true
  | .notFound => .ok false
  | .err e => .error e

/-- Per-node processor state relevant to SendWrite: the node id, the
frames of the on-disk queue in FIFO order, and the statistics counters.
The queue is repository code outside the provided source and is modelled
from the spec queue collaborator: Current returns the head frame or
io.EOF when empty, Advance drops the head. -/
structure ProcState where
  nodeID : Nat
  queue : List (List Nat)
  stats : NodeProcessorStatistics
  deriving Repr, DecidableEq

/-- NodeProcessor.SendWrite from the source.  The meta lookup behind
Active and the remote ShardWriter are external collaborators and enter as
parameters; writeShard returns none on success and the error otherwise.
Queue Advance failures are logged and ignored by the source and cannot
occur on the list model. -/
def NodeProcessor.SendWrite (resp : DataNodeResp)
    (writeShard : Nat → Nat → List Point → Option String)
    (p : ProcState) : Except String Nat × ProcState :=
  match NodeProcessor.ActiveResult resp with
  | .error e => (.error e, p)
  | .ok false => (.error ioEOF, p)
  | .ok true =>
    match p.queue with
    | [] => (.error ioEOF, p)
    | buf :: rest =>
      match unmarshalWrite buf with
      | .error e => (.error e, { p with queue := rest })
      | .ok (shardID, points) =>
        match writeShard shardID p.nodeID points with
        | some e =>
          (.error e,
            { p with stats := { p.stats with WriteNodeReqFail := p.stats.WriteNodeReqFail + 1 } })
        | none =>
          (.ok buf.length,
            { p with queue := rest,
                     stats := { p.stats with
                       WriteNodeReq := p.stats.WriteNodeReq + 1,
                       WriteNodeReqPoints := p.stats.WriteNodeReqPoints + points.length } })

/-- NodeProcessor.sendingLoop from the source, as a function of the
concurrency-gate outcome (gateAllowed is the result of concurrencyAllow,
consulted only when maxActive is positive) and of the SendWrite error,
none denoting a nil error.  The deferred gate release and the byte-rate
limiter do not affect the returned delay and are erased. -/
def NodeProcessor.sendingLoop (retryInterval retryMaxInterval : Nat) (maxActive : Int)
    (gateAllowed : Bool) (sendErr : Option String) (curDelay : Nat) : Nat :=
  if 0 < maxActive ∧ gateAllowed = false then retryInterval
  else
    match sendErr with
    | none => retryInterval
    | some e =>
      if e = ioEOF then retryInterval
      else
        let nextDelay := 2 * curDelay
        if nextDelay > retryMaxInterval then retryMaxInterval else nextDelay

/-- The initial wait time computed at the top of NodeProcessor.run before
the first tick of the sending timer. -/
def NodeProcessor.initialWaitTime (retryInterval retryMaxInterval : Nat) : Nat :=
  if retryInterval > retryMaxInterval then retryMaxInterval else retryInterval

/-! ## Theorems. -/

/-- C10: for every snapshot d supplied to Client.SetData, the snapshot
installed on success has Index equal to d.Index plus one; the preliminary
reset of the cached Index to zero has no effect on the committed result,
because the commit pipeline increments the Index of the clone of the
supplied snapshot, not of the old cache. -/
theorem setData_index (c : Client) (d : Data) :
    (Client.SetData c d).1 = .ok () ∧
    (Client.SetData c d).2.cacheData.index = d.index + 1 := by
  constructor <;> rfl

/-- C3 counterexample at a concrete input: with WriteShardReqPoints equal
to five and WriteNodeReqPoints equal to three, the value exported under
the writeNodeReqPoints key is five, the WriteShardReqPoints counter, and
not the WriteNodeReqPoints counter of three.  The Statistics method
aliases the two counters, contradicting the specified distinctness. -/
theorem statistics_aliases_writeNodeReqPoints :
    (NodeProcessor.StatisticsValues
        { WriteShardReq := 7, WriteShardReqPoints := 5, WriteNodeReq := 2,
          WriteNodeReqFail := 1, WriteNodeReqPoints := 3 }).lookup "writeNodeReqPoints"
      = some 5 ∧ (5 : Int) ≠ 3 := by
  constructor
  · rfl
  · decide

/-! ### Wire codec lemmas and C9. -/

theorem foldl_append_texts (ps : List Point) (init : List Nat) :
    ps.foldl (fun b p => b ++ p.text ++ [10]) init
      = init ++ (ps.map (fun p => p.text ++ [10])).flatten := by
  induction ps generalizing init with
  | nil => simp
  | cons p t ih => rw [List.foldl_cons, ih]; simp [List.append_assoc]

theorem splitOnNl_append (x rest : List Nat) (hx : 10 ∉ x) :
    splitOnNl (x ++ 10 :: rest) = x :: splitOnNl rest := by
  induction x with
  | nil => simp [splitOnNl]
  | cons c t ih =>
    have hc : ¬c = 10 := fun h => hx (by simp [h])
    have ht : 10 ∉ t := fun h => hx (List.mem_cons_of_mem _ h)
    simp only [List.cons_append, splitOnNl, if_neg hc, List.append_eq]
    rw [ih ht]

theorem splitFilter_serialize (ps : List Point)
    (h : ∀ p ∈ ps, p.text ≠ [] ∧ 10 ∉ p.text) :
    ((splitOnNl ((ps.map (fun p => p.text ++ [10])).flatten)).filter
        (fun l => !l.isEmpty)).map (fun l => ({ text := l } : Point)) = ps := by
  induction ps with
  | nil => simp [splitOnNl]
  | cons p t ih =>
    have hp := h p (List.mem_cons_self _ _)
    have hrec := ih (fun q hq => h q (List.mem_cons_of_mem _ hq))
    have hflat : ((p :: t).map (fun q => q.text ++ [10])).flatten
        = p.text ++ 10 :: (t.map (fun q => q.text ++ [10])).flatten := by
      simp
    rw [hflat, splitOnNl_append _ _ hp.2]
    have hne : (!p.text.isEmpty) = true := by
      cases hpt : p.text with
      | nil => exact absurd hpt hp.1
      | cons a b => simp
    simp only [List.filter_cons, hne, if_pos, List.map_cons, hrec]

theorem fromBE8_toBE8 (n : Nat) (h : n < 2 ^ 64) : fromBE8 (toBE8 n) = n := by
  simp only [toBE8, fromBE8]
  omega

/-- C9: the wire codec round-trips: for every shard id within uint64
range and every list of points whose line-protocol texts are nonempty and
newline-free, unmarshalWrite of marshalWrite returns the same shard id
and points; and every frame shorter than eight bytes is rejected with an
explicit error. -/
theorem unmarshalWrite_marshalWrite (s : Nat) (ps : List Point)
    (hs : s < 2 ^ 64)
    (hps : ∀ p ∈ ps, p.text ≠ [] ∧ 10 ∉ p.text) :
    unmarshalWrite (marshalWrite s ps) = .ok (s, ps) ∧
    ∀ b : List Nat, b.length < 8 →
      unmarshalWrite b = .error ("too short: len = " ++ toString b.length) := by
  constructor
  · have hm : marshalWrite s ps
        = toBE8 s ++ (ps.map (fun p => p.text ++ [10])).flatten :=
      foldl_append_texts ps (toBE8 s)
    have hlen : (toBE8 s).length = 8 := rfl
    rw [hm]
    unfold unmarshalWrite
    rw [if_neg (by simp only [List.length_append, hlen]; omega)]
    rw [List.drop_left' hlen, List.take_left' hlen]
    unfold ParsePoints
    rw [splitFilter_serialize ps hps, fromBE8_toBE8 s hs]
  · intro b hb
    unfold unmarshalWrite
    rw [if_pos hb]

theorem unmarshalWrite_marshalWrite_witness :
    (3 : Nat) < 2 ^ 64 ∧
    unmarshalWrite (marshalWrite 3 [{ text := [97] }]) = .ok (3, [{ text := [97] }]) :=
  ⟨by decide, (unmarshalWrite_marshalWrite 3 [{ text := [97] }] (by decide) (by decide)).1⟩

/-! ### SendWrite (C5). -/

/-- C5: SendWrite with the node active and a current frame present: a
frame that fails to decode is skipped (the queue advances past it) and
the decode error is returned; a frame that decodes but is rejected by the
remote writer increments WriteNodeReqFail and is kept for retry (no
advance); a delivered frame increments WriteNodeReq and
WriteNodeReqPoints by the point count, advances the queue, and returns
the frame length with a nil error. -/
theorem sendWrite_cases (w : Nat → Nat → List Point → Option String)
    (p : ProcState) (buf : List Nat) (rest : List (List Nat))
    (hq : p.queue = buf :: rest) :
    (∀ e, unmarshalWrite buf = .error e →
      NodeProcessor.SendWrite .found w p = (.error e, { p with queue := rest })) ∧
    (∀ s pts e, unmarshalWrite buf = .ok (s, pts) → w s p.nodeID pts = some e →
      NodeProcessor.SendWrite .found w p =
        (.error e,
          { p with stats := { p.stats with WriteNodeReqFail := p.stats.WriteNodeReqFail + 1 } })) ∧
    (∀ s pts, unmarshalWrite buf = .ok (s, pts) → w s p.nodeID pts = none →
      NodeProcessor.SendWrite .found w p =
        (.ok buf.length,
          { p with queue := rest,
                   stats := { p.stats with
                     WriteNodeReq := p.stats.WriteNodeReq + 1,
                     WriteNodeReqPoints := p.stats.WriteNodeReqPoints + pts.length } })) := by
  refine ⟨?_, ?_, ?_⟩ <;> intros <;>
    simp_all [NodeProcessor.SendWrite, NodeProcessor.ActiveResult]

theorem sendWrite_cases_witness :
    ({ nodeID := 9, queue := [[0, 0, 0, 0, 0, 0, 0, 5, 97, 10], [1]],
       stats := ⟨0, 0, 0, 0, 0⟩ } : ProcState).queue
        = [0, 0, 0, 0, 0, 0, 0, 5, 97, 10] :: [[1]] ∧
    unmarshalWrite [0, 0, 0, 0, 0, 0, 0, 5, 97, 10] = .ok (5, [{ text := [97] }]) ∧
    NodeProcessor.SendWrite .found (fun _ _ _ => none)
        { nodeID := 9, queue := [[0, 0, 0, 0, 0, 0, 0, 5, 97, 10], [1]],
          stats := ⟨0, 0, 0, 0, 0⟩ }
      = (.ok 10, { nodeID := 9, queue := [[1]], stats := ⟨0, 0, 1, 0, 1⟩ }) :=
  ⟨rfl, rfl,
   (sendWrite_cases (fun _ _ _ => none)
      { nodeID := 9, queue := [[0, 0, 0, 0, 0, 0, 0, 5, 97, 10], [1]],
        stats := ⟨0, 0, 0, 0, 0⟩ }
      [0, 0, 0, 0, 0, 0, 0, 5, 97, 10] [[1]] rfl).2.2 5 [{ text := [97] }] rfl rfl⟩

/-! ### sendingLoop backoff (C6). -/

/-- C6: sendingLoop returns RetryInterval on a nil error, on io.EOF, and
when the concurrency gate (active only for a positive cap) denies entry;
any other error yields twice the current delay capped at
RetryMaxInterval; and the initial wait time of the background loop is the
minimum of RetryInterval and RetryMaxInterval. -/
theorem sendingLoop_backoff (ri rmax : Nat) (ma : Int) (d : Nat) :
    (0 < ma → ∀ e, NodeProcessor.sendingLoop ri rmax ma false e d = ri) ∧
    NodeProcessor.sendingLoop ri rmax ma true none d = ri ∧
    NodeProcessor.sendingLoop ri rmax ma true (some ioEOF) d = ri ∧
    (∀ e, e ≠ ioEOF → NodeProcessor.sendingLoop ri rmax ma true (some e) d = min (2 * d) rmax) ∧
    NodeProcessor.initialWaitTime ri rmax = min ri rmax := by
  refine ⟨?_, ?_, ?_, ?_, ?_⟩
  · intro hma e
    simp [NodeProcessor.sendingLoop, hma]
  · simp [NodeProcessor.sendingLoop]
  · simp [NodeProcessor.sendingLoop]
  · intro e he
    simp only [NodeProcessor.sendingLoop, Bool.true_eq_false, and_false, if_false, if_neg he]
    split <;> omega
  · unfold NodeProcessor.initialWaitTime
    split <;> omega

theorem sendingLoop_backoff_witness :
    NodeProcessor.sendingLoop 4 6 1 false none 5 = 4 ∧
    NodeProcessor.sendingLoop 4 6 1 true (some "boom") 5 = min (2 * 5) 6 ∧
    NodeProcessor.initialWaitTime 4 6 = min 4 6 :=
  ⟨(sendingLoop_backoff 4 6 1 5).1 (by decide) none,
   (sendingLoop_backoff 4 6 1 5).2.2.2.1 "boom" (by decide),
   (sendingLoop_backoff 4 6 1 5).2.2.2.2⟩

/-! ### Atomicity of mutations (C2) and the CreateUser existence check (C1). -/

theorem find?_append_last {α : Type} (p : α → Bool) (l : List α) (x : α) (hx : p x = true) :
    (List.find? p (l ++ [x])).isSome = true := by
  induction l with
  | nil => simp [List.find?, hx]
  | cons a t ih =>
    rw [List.cons_append, List.find?_cons]
    split <;> simp [ih, hx]

theorem createUser_userGo (d : Data) (n hsh : String) (a : Bool) (d1 : Data)
    (h : Data.CreateUser d n hsh a = .ok d1) (c : Client)
    (hc : c.cacheData.users = d1.users) :
    ∃ u, c.userGo n = (some u, none) := by
  unfold Data.CreateUser at h
  split at h
  · exact absurd h (by simp)
  · cases h
    unfold Client.userGo
    rw [hc]
    dsimp only
    have hs := find?_append_last (fun u => u.name == n) d.users
      { name := n, hash := hsh, admin := a } (by simp)
    cases hf : List.find? (fun u => u.name == n)
        (d.users ++ [{ name := n, hash := hsh, admin := a }]) with
    | none => rw [hf] at hs; simp at hs
    | some u => exact ⟨u, rfl⟩

/-- C1, the source evaluated at the failing input of the claim: with the
user alice already stored with exactly the hash h1 and the admin flag
true, CreateUser with the identical hash and flag returns ErrUserExists
(leaving the client unchanged) instead of the specified idempotent
success, because the inverted existence condition of the source never
fires and the duplicate falls through to Data.CreateUser. -/
theorem createUser_exact_match_errs :
    Client.CreateUser
        { cacheData := { index := 1, clusterID := 0, maxNodeID := 0, maxShardGroupID := 0,
                         maxShardID := 0, databases := [], dataNodes := [],
                         users := [{ name := "alice", hash := "h1", admin := true }] },
          authCache := [], changedGen := 0, retentionAutoCreate := false }
        "alice" "h1" true
      = (.error ErrUserExists,
         { cacheData := { index := 1, clusterID := 0, maxNodeID := 0, maxShardGroupID := 0,
                          maxShardID := 0, databases := [], dataNodes := [],
                          users := [{ name := "alice", hash := "h1", admin := true }] },
           authCache := [], changedGen := 0, retentionAutoCreate := false }) := rfl

/-- C2: every meta Client mutation operation that returns an error leaves
the cached snapshot equal to its pre-call value (hence byte-identical
under any serialization): no mutation is ever partially applied. -/
theorem mutation_error_snapshot_unchanged (op : MutationOp) (c : Client) (e : String)
    (c1 : Client) (h : applyMutation op c = (.error e, c1)) :
    c1.cacheData = c.cacheData := by
  cases op with
  | createDataNode hA tA =>
    simp only [applyMutation, Client.CreateDataNode] at h
    cases hcd : Data.CreateDataNode c.cacheData hA tA with
    | error e2 => rw [hcd] at h; simp [toUnit] at h; rw [← h.2]
    | ok d1 =>
      rw [hcd] at h
      have hfind : (d1.dataNodes.find? (fun n => n.tcpHost == tA)).isSome = true := by
        unfold Data.CreateDataNode at hcd
        split at hcd
        · exact absurd hcd (by simp)
        · cases hcd
          exact find?_append_last _ _ _ (by simp)
      simp only [Client.DataNodeByTCPHost] at h
      cases hf : d1.dataNodes.find? (fun n => n.tcpHost == tA) with
      | none => rw [hf] at hfind; simp at hfind
      | some n0 => rw [hf] at h; simp [toUnit] at h
  | deleteDataNode id =>
    simp only [applyMutation, Client.DeleteDataNode, Data.Clone] at h
    cases hd : Data.DeleteDataNode c.cacheData id with
    | error e2 => rw [hd] at h; simp [toUnit] at h; rw [← h.2]
    | ok d1 => rw [hd] at h; simp [toUnit] at h
  | createDatabase n =>
    simp only [applyMutation, Client.CreateDatabase, Data.Clone] at h
    repeat' split at h
    all_goals simp [toUnit] at h
    all_goals rw [← h.2]
  | dropDatabase n =>
    simp only [applyMutation, Client.DropDatabase, Data.Clone] at h
    cases hd : Data.DropDatabase c.cacheData n with
    | error e2 => rw [hd] at h; simp [toUnit] at h; rw [← h.2]
    | ok d1 => rw [hd] at h; simp [toUnit] at h
  | createRetentionPolicy db sd n sg rn mk =>
    simp only [applyMutation, Client.CreateRetentionPolicy, Data.Clone] at h
    split at h
    · simp [toUnit] at h; rw [← h.2]
    · cases hcr : Data.CreateRetentionPolicy c.cacheData db
          { name := n, duration := sd.getD 0, shardGroupDuration := sg,
            replicaN := rn, shardGroups := [] } mk with
      | error e2 => rw [hcr] at h; simp [toUnit] at h; rw [← h.2]
      | ok d1 => rw [hcr] at h; simp [toUnit] at h
  | dropRetentionPolicy db n =>
    simp only [applyMutation, Client.DropRetentionPolicy, Data.Clone] at h
    cases hd : Data.DropRetentionPolicy c.cacheData db n with
    | error e2 => rw [hd] at h; simp [toUnit] at h; rw [← h.2]
    | ok d1 => rw [hd] at h; simp [toUnit] at h
  | createUser n hsh a =>
    simp only [applyMutation, Client.CreateUser, Data.Clone] at h
    split at h
    · split at h <;> simp [toUnit] at h
      rw [← h.2]
    · cases hcu : Data.CreateUser c.cacheData n hsh a with
      | error e2 => rw [hcu] at h; simp [toUnit] at h; rw [← h.2]
      | ok d1 =>
        rw [hcu] at h
        dsimp only at h
        obtain ⟨u, hu⟩ := createUser_userGo c.cacheData n hsh a d1 hcu
          (Client.commit c d1) rfl
        rw [hu] at h
        simp [toUnit] at h
  | updateUser n hsh =>
    simp only [applyMutation, Client.UpdateUser, Data.Clone] at h
    cases hd : Data.UpdateUser c.cacheData n hsh with
    | error e2 => rw [hd] at h; simp [toUnit] at h; rw [← h.2]
    | ok d1 => rw [hd] at h; simp [toUnit] at h
  | dropUser n =>
    simp only [applyMutation, Client.DropUser, Data.Clone] at h
    cases hd : Data.DropUser c.cacheData n with
    | error e2 => rw [hd] at h; simp [toUnit] at h; rw [← h.2]
    | ok d1 => rw [hd] at h; simp [toUnit] at h

theorem mutation_error_snapshot_unchanged_witness :
    applyMutation (.dropUser "ghost")
        { cacheData := { index := 1, clusterID := 0, maxNodeID := 0, maxShardGroupID := 0,
                         maxShardID := 0, databases := [], dataNodes := [], users := [] },
          authCache := [], changedGen := 0, retentionAutoCreate := false }
      = (.error ErrUserNotFound,
         { cacheData := { index := 1, clusterID := 0, maxNodeID := 0, maxShardGroupID := 0,
                          maxShardID := 0, databases := [], dataNodes := [], users := [] },
           authCache := [], changedGen := 0, retentionAutoCreate := false }) ∧
    ({ cacheData := { index := 1, clusterID := 0, maxNodeID := 0, maxShardGroupID := 0,
                      maxShardID := 0, databases := [], dataNodes := [], users := [] },
       authCache := [], changedGen := 0, retentionAutoCreate := false } : Client).cacheData
      = ({ cacheData := { index := 1, clusterID := 0, maxNodeID := 0, maxShardGroupID := 0,
                          maxShardID := 0, databases := [], dataNodes := [], users := [] },
           authCache := [], changedGen := 0, retentionAutoCreate := false } : Client).cacheData :=
  ⟨rfl, mutation_error_snapshot_unchanged (.dropUser "ghost") _ ErrUserNotFound _ rfl⟩

/-! ### Authentication cache transparency (C7). -/

theorem bcryptOf_inj {a b : String} (h : bcryptOf a = bcryptOf b) : a = b := by
  unfold bcryptOf at h
  have h2 : Char.ofNat 36 :: a.data = Char.ofNat 36 :: b.data := by
    have := congrArg String.data h
    simpa using this
  have h3 : a.data = b.data := by injection h2
  exact String.ext h3

theorem lookup_cacheErase_self (l : List (String × AuthUser)) (k : String) :
    List.lookup k (cacheErase l k) = none := by
  induction l with
  | nil => rfl
  | cons e t ih =>
    obtain ⟨ek, ev⟩ := e
    by_cases hk : ek = k
    · simpa [cacheErase, List.filter_cons, hk] using ih
    · have h1 : (ek != k) = true := by simp [hk]
      have h2 : (k == ek) = false := by simp [Ne.symm hk]
      simpa [cacheErase, List.filter_cons, h1, List.lookup, h2] using ih

/-- C7: Authenticate is cache-transparent on every cache-consistent
state: the returned user or error is the same whether or not the auth
cache holds an entry for the name (whatever fresh salts the two runs
draw); and a successful UpdateUser or DropUser removes the cache entry of
the user, forcing the next Authenticate to re-verify against the stored
bcrypt hash. -/
theorem authenticate_cache_transparent (c : Client) (username password hash : String)
    (salt1 salt2 : Nat) (hcons : cacheConsistent c username) :
    (Client.Authenticate c username password salt1).1 =
      (Client.Authenticate { c with authCache := cacheErase c.authCache username }
        username password salt2).1 ∧
    ((Client.UpdateUser c username hash).1 = .ok () →
      List.lookup username (Client.UpdateUser c username hash).2.authCache = none) ∧
    ((Client.DropUser c username).1 = .ok () →
      List.lookup username (Client.DropUser c username).2.authCache = none) := by
  refine ⟨?_, ?_, ?_⟩
  · unfold Client.Authenticate
    have hug : ({ c with authCache := cacheErase c.authCache username } : Client).userGo username
        = c.userGo username := rfl
    rw [hug]
    unfold Client.userGo
    cases hf : c.cacheData.users.find? (fun u => u.name == username) with
    | none => rfl
    | some uinfo =>
      dsimp only
      rw [lookup_cacheErase_self]
      cases hl : List.lookup username c.authCache with
      | none =>
        by_cases hb : bcryptOf password = uinfo.hash <;> simp [hb]
      | some au =>
        obtain ⟨uinfo2, hug2, hbh, p0, hhash, hbc⟩ := hcons au hl
        have huu : uinfo2 = uinfo := by
          simp [Client.userGo, hf] at hug2
          exact hug2.symm
        subst huu
        by_cases hp : password = p0
        · subst hp
          have hhit : hashWithSalt au.salt password = au.hash := by
            rw [hhash]
          have hbcr : bcryptOf password = uinfo2.hash := by
            rw [← hbh, hbc]
          simp [hhit, hbcr]
        · have hmiss : ¬hashWithSalt au.salt password = au.hash := by
            rw [hhash]
            simp [hashWithSalt]
            exact hp
          have hbcr : ¬bcryptOf password = uinfo2.hash := by
            rw [← hbh, ← hbc]
            intro hcontr
            exact hp (bcryptOf_inj hcontr)
          simp [hmiss, hbcr]
  · intro hok
    simp only [Client.UpdateUser, Data.Clone] at hok ⊢
    cases hd : Data.UpdateUser c.cacheData username hash with
    | error e2 => rw [hd] at hok; simp at hok
    | ok d1 => exact lookup_cacheErase_self c.authCache username
  · intro hok
    simp only [Client.DropUser, Data.Clone] at hok ⊢
    cases hd : Data.DropUser c.cacheData username with
    | error e2 => rw [hd] at hok; simp at hok
    | ok d1 => exact lookup_cacheErase_self c.authCache username

theorem authenticate_cache_transparent_witness :
    (Client.Authenticate
        { cacheData := { index := 1, clusterID := 0, maxNodeID := 0, maxShardGroupID := 0,
                         maxShardID := 0, databases := [], dataNodes := [],
                         users := [{ name := "alice", hash := bcryptOf "pw", admin := false }] },
          authCache := [], changedGen := 0, retentionAutoCreate := false }
        "alice" "pw" 3).1 =
      (Client.Authenticate
        { cacheData := { index := 1, clusterID := 0, maxNodeID := 0, maxShardGroupID := 0,
                         maxShardID := 0, databases := [], dataNodes := [],
                         users := [{ name := "alice", hash := bcryptOf "pw", admin := false }] },
          authCache := cacheErase
            ({ cacheData := { index := 1, clusterID := 0, maxNodeID := 0, maxShardGroupID := 0,
                              maxShardID := 0, databases := [], dataNodes := [],
                              users := [{ name := "alice", hash := bcryptOf "pw", admin := false }] },
               authCache := [], changedGen := 0, retentionAutoCreate := false } : Client).authCache
            "alice",
          changedGen := 0, retentionAutoCreate := false }
        "alice" "pw" 4).1 :=
  (authenticate_cache_transparent
    { cacheData := { index := 1, clusterID := 0, maxNodeID := 0, maxShardGroupID := 0,
                     maxShardID := 0, databases := [], dataNodes := [],
                     users := [{ name := "alice", hash := bcryptOf "pw", admin := false }] },
      authCache := [], changedGen := 0, retentionAutoCreate := false }
    "alice" "pw" "h2" 3 4 (fun _ h => nomatch h)).1

/-! ### Precreation lemmas (C8). -/

theorem find?_key_self {α : Type} (key : α → String) (l : List α) (x : α)
    (hnd : (l.map key).Nodup) (hx : x ∈ l) :
    l.find? (fun y => key y == key x) = some x := by
  induction l with
  | nil => cases hx
  | cons a t ih =>
    have hnd2 : key a ∉ t.map key ∧ (t.map key).Nodup := by
      rw [List.map_cons, List.nodup_cons] at hnd
      exact hnd
    rw [List.find?_cons]
    rcases List.mem_cons.mp hx with h | h
    · subst h; simp
    · have hna : key a ≠ key x := by
        intro hcontr
        exact hnd2.1 (hcontr ▸ List.mem_map_of_mem key h)
      have hb : (key a == key x) = false := by simp [hna]
      rw [hb]
      simpa using ih hnd2.2 h

theorem find?_map_ifkey {α : Type} (key : α → String) (target q : String)
    (h : α → α) (hk : ∀ x, key (h x) = key x) (l : List α) :
    List.find? (fun y => key y == q) (l.map (fun x => if key x == target then h x else x))
      = Option.map (fun x => if key x == target then h x else x)
          (List.find? (fun y => key y == q) l) := by
  rw [List.find?_map]
  have hcomp : ((fun y => key y == q) ∘ (fun x => if key x == target then h x else x))
      = (fun y => key y == q) := by
    funext y
    simp only [Function.comp_apply]
    split <;> simp [hk]
  rw [hcomp]

theorem lookupRP_eq (d : Data) (db rp : String) :
    d.lookupRP db rp = (d.databases.find? (fun di => di.name == db)).bind
        (fun di => di.retentionPolicies.find? (fun r => r.name == rp)) := by
  unfold Data.lookupRP Data.database
  cases List.find? (fun di => di.name == db) d.databases <;> rfl

theorem lookupRP_updateRP_self (d : Data) (db rp : String)
    (f : RetentionPolicyInfo → RetentionPolicyInfo)
    (hf : ∀ r, (f r).name = r.name) :
    (d.updateRP db rp f).lookupRP db rp = (d.lookupRP db rp).map f := by
  simp only [lookupRP_eq, Data.updateRP]
  rw [find?_map_ifkey DatabaseInfo.name db db
    (fun di => { di with retentionPolicies := di.retentionPolicies.map (fun r =>
        if r.name == rp then f r else r) })
    (fun _ => rfl) d.databases]
  cases hdf : List.find? (fun di => di.name == db) d.databases with
  | none => simp
  | some di =>
    have hdin : di.name = db := by simpa using List.find?_some hdf
    have hcond : (di.name == db) = true := by simp [hdin]
    simp only [Option.map_some', Option.some_bind, hcond, if_true]
    rw [find?_map_ifkey RetentionPolicyInfo.name rp rp f hf di.retentionPolicies]
    cases hrf : List.find? (fun r => r.name == rp) di.retentionPolicies with
    | none => simp
    | some r =>
      have hrn : r.name = rp := by simpa using List.find?_some hrf
      simp [hrn]

theorem lookupRP_updateRP_other (d : Data) (db rp : String)
    (f : RetentionPolicyInfo → RetentionPolicyInfo)
    (hf : ∀ r, (f r).name = r.name) (db2 rp2 : String)
    (hne : ¬(db2 = db ∧ rp2 = rp)) :
    (d.updateRP db rp f).lookupRP db2 rp2 = d.lookupRP db2 rp2 := by
  simp only [lookupRP_eq, Data.updateRP]
  rw [find?_map_ifkey DatabaseInfo.name db db2
    (fun di => { di with retentionPolicies := di.retentionPolicies.map (fun r =>
        if r.name == rp then f r else r) })
    (fun _ => rfl) d.databases]
  cases hdf : List.find? (fun di => di.name == db2) d.databases with
  | none => simp
  | some di =>
    have hdin : di.name = db2 := by simpa using List.find?_some hdf
    by_cases hdb : db2 = db
    · have hrp : ¬rp2 = rp := fun h => hne ⟨hdb, h⟩
      subst hdb
      have hcond : (di.name == db2) = true := by simp [hdin]
      simp only [Option.map_some', Option.some_bind, hcond, if_true]
      rw [find?_map_ifkey RetentionPolicyInfo.name rp rp2 f hf di.retentionPolicies]
      cases hrf : List.find? (fun r => r.name == rp2) di.retentionPolicies with
      | none => simp
      | some r =>
        have hrn : r.name = rp2 := by simpa using List.find?_some hrf
        have hb : (r.name == rp) = false := by simp [hrn, hrp]
        simp only [Option.map_some']
        simp only [hb, Bool.false_eq_true, if_false]
    · have hcond : (di.name == db) = false := by simp [hdin, hdb]
      simp only [Option.map_some', Option.some_bind, hcond]
      rw [if_neg (by simp)]

theorem RetentionPolicy_of_lookupRP (d : Data) (db rp : String) (r : RetentionPolicyInfo)
    (h : d.lookupRP db rp = some r) : d.RetentionPolicy db rp = .ok (some r) := by
  unfold Data.lookupRP at h
  unfold Data.RetentionPolicy
  cases hdb : d.database db with
  | none => rw [hdb] at h; exact absurd h (by simp)
  | some di =>
    rw [hdb] at h
    dsimp only at h ⊢
    rw [h]

theorem createShardGroup_ok (d : Data) (db rpN : String) (ts : Nat)
    (rp : RetentionPolicyInfo) (hl : d.lookupRP db rpN = some rp)
    (hdur : 0 < rp.shardGroupDuration)
    (hcov : rp.ShardGroupByTimestamp ts = none) :
    ∃ og, createShardGroup d db rpN ts = .ok (og, createdData d db rpN rp ts) ∧
      (newShardGroup d rp ts).deletedAt = 0 ∧
      (newShardGroup d rp ts).startTime ≤ ts ∧
      ts < (newShardGroup d rp ts).endTime ∧
      (createdData d db rpN rp ts).index = d.index ∧
      (createdData d db rpN rp ts).lookupRP db rpN
        = some { rp with shardGroups :=
            insertByStart (newShardGroup d rp ts) rp.shardGroups } ∧
      (∀ db2 rp2, ¬(db2 = db ∧ rp2 = rpN) →
        (createdData d db rpN rp ts).lookupRP db2 rp2 = d.lookupRP db2 rp2) := by
  have hsg : d.ShardGroupByTimestamp db rpN ts = none := by
    unfold Data.ShardGroupByTimestamp
    rw [hl]
    exact hcov
  have hcsg : d.CreateShardGroup db rpN ts = .ok (createdData d db rpN rp ts) := by
    unfold Data.CreateShardGroup
    rw [hl]
    dsimp only
    rw [hcov]
    rfl
  have hself : (createdData d db rpN rp ts).lookupRP db rpN
      = some { rp with shardGroups :=
          insertByStart (newShardGroup d rp ts) rp.shardGroups } := by
    have hred : (createdData d db rpN rp ts).lookupRP db rpN
        = (d.updateRP db rpN (fun r =>
            { r with shardGroups :=
                insertByStart (newShardGroup d rp ts) r.shardGroups })).lookupRP db rpN := rfl
    rw [hred]
    rw [lookupRP_updateRP_self d db rpN (fun r =>
        { r with shardGroups := insertByStart (newShardGroup d rp ts) r.shardGroups })
      (fun _ => rfl)]
    rw [hl]
    rfl
  refine ⟨RetentionPolicyInfo.ShardGroupByTimestamp
      { rp with shardGroups := (insertByStart
          (newShardGroup d rp ts) rp.shardGroups) } ts, ?_, rfl, ?_, ?_, rfl, hself, ?_⟩
  · unfold createShardGroup
    rw [hsg]
    simp only [Option.isSome_none, Bool.false_eq_true, if_false]
    rw [hcsg]
    dsimp only
    rw [RetentionPolicy_of_lookupRP _ _ _ _ hself]
  · exact Nat.div_mul_le_self ts rp.shardGroupDuration
  · have h1 := Nat.div_add_mod ts rp.shardGroupDuration
    have h2 := Nat.mod_lt ts hdur
    have h3 : ts / rp.shardGroupDuration * rp.shardGroupDuration
        = rp.shardGroupDuration * (ts / rp.shardGroupDuration) := Nat.mul_comm _ _
    unfold newShardGroup
    dsimp only
    omega
  · intro db2 rp2 hne
    have hred : (createdData d db rpN rp ts).lookupRP db2 rp2
        = (d.updateRP db rpN (fun r =>
            { r with shardGroups :=
                insertByStart (newShardGroup d rp ts) r.shardGroups })).lookupRP db2 rp2 := rfl
    rw [hred]
    exact lookupRP_updateRP_other d db rpN (fun r =>
      { r with shardGroups := insertByStart (newShardGroup d rp ts) r.shardGroups })
      (fun _ => rfl) db2 rp2 hne

theorem precreateStep_char (tFrom tTo : Nat) (acc : Data × Bool) (dbName : String)
    (rp : RetentionPolicyInfo)
    (hl : acc.1.lookupRP dbName rp.name = some rp)
    (hdur : 0 < rp.shardGroupDuration) :
    (condB rp tFrom tTo = false → precreateStep tFrom tTo acc dbName rp = acc) ∧
    (condB rp tFrom tTo = true →
      ∃ g newG d1, rp.shardGroups.getLast? = some g ∧
        precreateStep tFrom tTo acc dbName rp = (d1, true) ∧
        newG.deletedAt = 0 ∧ newG.startTime ≤ g.endTime + 1 ∧
        g.endTime + 1 < newG.endTime ∧
        d1.index = acc.1.index ∧
        d1.lookupRP dbName rp.name
          = some { rp with shardGroups := insertByStart newG rp.shardGroups } ∧
        (∀ db2 rp2, ¬(db2 = dbName ∧ rp2 = rp.name) →
          d1.lookupRP db2 rp2 = acc.1.lookupRP db2 rp2)) := by
  have hsgeq : ∀ t, acc.1.ShardGroupByTimestamp dbName rp.name t
      = rp.ShardGroupByTimestamp t := by
    intro t
    unfold Data.ShardGroupByTimestamp
    rw [hl]
  unfold precreateStep condB
  cases hg : rp.shardGroups.getLast? with
  | none => exact ⟨fun _ => rfl, fun hc => nomatch hc⟩
  | some g =>
    dsimp only
    by_cases hflags :
        (!g.Deleted && decide (g.endTime < tTo) && decide (tFrom < g.endTime)) = true
    · rw [hflags]
      by_cases hcv : (rp.ShardGroupByTimestamp (g.endTime + 1)).isSome = true
      · constructor
        · intro _
          rw [if_pos rfl, if_pos (by rw [hsgeq]; exact hcv)]
        · intro hc
          rw [hcv] at hc
          simp at hc
      · have hcvf : (rp.ShardGroupByTimestamp (g.endTime + 1)).isSome = false := by
          simpa using hcv
        have hcov : rp.ShardGroupByTimestamp (g.endTime + 1) = none :=
          Option.not_isSome_iff_eq_none.mp (by simpa using hcv)
        constructor
        · intro hc
          rw [hcvf] at hc
          simp at hc
        · intro _
          obtain ⟨og, hcs, hdel, hle, hlt, hidx, hself, hframe⟩ :=
            createShardGroup_ok acc.1 dbName rp.name (g.endTime + 1) rp hl hdur hcov
          refine ⟨g, newShardGroup acc.1 rp (g.endTime + 1),
            createdData acc.1 dbName rp.name rp (g.endTime + 1), rfl, ?_,
            hdel, hle, hlt, hidx, hself, hframe⟩
          rw [if_pos rfl, if_neg (by rw [hsgeq, hcov]; simp), hcs]
    · have hflf :
          (!g.Deleted && decide (g.endTime < tTo) && decide (tFrom < g.endTime)) = false := by
        simpa using hflags
      rw [hflf]
      constructor
      · intro _
        rw [if_neg (by simp)]
      · intro hc
        simp at hc

theorem precreate_foldRP (tFrom tTo : Nat) (dbName : String)
    (rps : List RetentionPolicyInfo) :
    ∀ acc : Data × Bool,
    (rps.map RetentionPolicyInfo.name).Nodup →
    (∀ rp ∈ rps, 0 < rp.shardGroupDuration) →
    (∀ rp ∈ rps, acc.1.lookupRP dbName rp.name = some rp) →
    ((rps.foldl (fun a r => precreateStep tFrom tTo a dbName r) acc).1.index
        = acc.1.index ∧
     (rps.foldl (fun a r => precreateStep tFrom tTo a dbName r) acc).2
        = (acc.2 || rps.any (fun rp => condB rp tFrom tTo)) ∧
     (rps.any (fun rp => condB rp tFrom tTo) = false →
        rps.foldl (fun a r => precreateStep tFrom tTo a dbName r) acc = acc) ∧
     (∀ db2 rp2, (db2 ≠ dbName ∨ ∀ rp ∈ rps, rp2 ≠ rp.name) →
        (rps.foldl (fun a r => precreateStep tFrom tTo a dbName r) acc).1.lookupRP db2 rp2
          = acc.1.lookupRP db2 rp2) ∧
     (∀ rp ∈ rps, ∃ rp1,
        (rps.foldl (fun a r => precreateStep tFrom tTo a dbName r) acc).1.lookupRP
            dbName rp.name = some rp1 ∧
        (if condB rp tFrom tTo then
          ∃ g newG, rp.shardGroups.getLast? = some g ∧ newG.deletedAt = 0 ∧
            newG.startTime ≤ g.endTime + 1 ∧ g.endTime + 1 < newG.endTime ∧
            rp1.shardGroups = insertByStart newG rp.shardGroups
         else rp1.shardGroups = rp.shardGroups))) := by
  induction rps with
  | nil =>
    intro acc hnd hdur hl
    exact ⟨rfl, by simp, fun _ => rfl, fun _ _ _ => rfl, fun rp hrp => absurd hrp (by simp)⟩
  | cons rp rest ih =>
    intro acc hnd hdur hl
    have hnd2 : rp.name ∉ rest.map RetentionPolicyInfo.name ∧
        (rest.map RetentionPolicyInfo.name).Nodup := by
      rw [List.map_cons, List.nodup_cons] at hnd
      exact hnd
    have hlrp := hl rp (List.mem_cons_self rp rest)
    have hdrp := hdur rp (List.mem_cons_self rp rest)
    obtain ⟨hfalse, htrue⟩ := precreateStep_char tFrom tTo acc dbName rp hlrp hdrp
    rw [List.foldl_cons]
    by_cases hc : condB rp tFrom tTo
    · obtain ⟨g, newG, d1, hg, hstep, hdel, hle, hlt, hidx, hself, hframe⟩ := htrue hc
      rw [hstep]
      have hl2 : ∀ r ∈ rest, (d1, true).1.lookupRP dbName r.name = some r := by
        intro r hr
        have hne : ¬(dbName = dbName ∧ r.name = rp.name) := by
          intro hcontr
          have hmem : r.name ∈ rest.map RetentionPolicyInfo.name :=
            List.mem_map_of_mem RetentionPolicyInfo.name hr
          rw [hcontr.2] at hmem
          exact hnd2.1 hmem
        rw [show ((d1, true).1 : Data) = d1 from rfl, hframe dbName r.name hne]
        exact hl r (List.mem_cons_of_mem rp hr)
      obtain ⟨ihidx, ihflag, ihid, ihframe, ihper⟩ := ih (d1, true) hnd2.2
        (fun r hr => hdur r (List.mem_cons_of_mem rp hr)) hl2
      refine ⟨?_, ?_, ?_, ?_, ?_⟩
      · exact ihidx.trans hidx
      · rw [ihflag]
        simp [hc]
      · intro hany
        rw [List.any_cons] at hany
        simp [hc] at hany
      · intro db2 rp2 hav
        have hav2 : db2 ≠ dbName ∨ ∀ r ∈ rest, rp2 ≠ r.name := by
          rcases hav with h | h
          · exact Or.inl h
          · exact Or.inr (fun r hr => h r (List.mem_cons_of_mem rp hr))
        rw [ihframe db2 rp2 hav2]
        refine hframe db2 rp2 ?_
        rcases hav with h | h
        · exact fun hcontr => h hcontr.1
        · exact fun hcontr => h rp (List.mem_cons_self rp rest) hcontr.2
      · intro r hr
        rcases List.mem_cons.mp hr with h | h
        · subst h
          have hv : dbName ≠ dbName ∨ ∀ q ∈ rest, r.name ≠ q.name := by
            refine Or.inr (fun q hq hcontr => ?_)
            have hmem : q.name ∈ rest.map RetentionPolicyInfo.name :=
              List.mem_map_of_mem RetentionPolicyInfo.name hq
            rw [← hcontr] at hmem
            exact hnd2.1 hmem
          refine ⟨{ r with shardGroups := insertByStart newG r.shardGroups }, ?_, ?_⟩
          · rw [ihframe dbName r.name hv]
            exact hself
          · rw [if_pos hc]
            exact ⟨g, newG, hg, hdel, hle, hlt, rfl⟩
        · exact ihper r h
    · have hcf : condB rp tFrom tTo = false := by simpa using hc
      rw [hfalse hcf]
      obtain ⟨ihidx, ihflag, ihid, ihframe, ihper⟩ := ih acc hnd2.2
        (fun r hr => hdur r (List.mem_cons_of_mem rp hr))
        (fun r hr => hl r (List.mem_cons_of_mem rp hr))
      refine ⟨ihidx, ?_, ?_, ?_, ?_⟩
      · rw [ihflag]
        simp [hcf]
      · intro hany
        rw [List.any_cons] at hany
        simp only [hcf, Bool.false_or] at hany
        exact ihid hany
      · intro db2 rp2 hav
        refine ihframe db2 rp2 ?_
        rcases hav with h | h
        · exact Or.inl h
        · exact Or.inr (fun r hr => h r (List.mem_cons_of_mem rp hr))
      · intro r hr
        rcases List.mem_cons.mp hr with h | h
        · subst h
          have hv : dbName ≠ dbName ∨ ∀ q ∈ rest, r.name ≠ q.name := by
            refine Or.inr (fun q hq hcontr => ?_)
            have hmem : q.name ∈ rest.map RetentionPolicyInfo.name :=
              List.mem_map_of_mem RetentionPolicyInfo.name hq
            rw [← hcontr] at hmem
            exact hnd2.1 hmem
          refine ⟨r, ?_, ?_⟩
          · rw [ihframe dbName r.name hv]
            exact hl r (List.mem_cons_self r rest)
          · rw [if_neg (by simp [hcf])]
        · exact ihper r h

theorem precreate_foldDB (tFrom tTo : Nat) (dbs : List DatabaseInfo) :
    ∀ acc : Data × Bool,
    (dbs.map DatabaseInfo.name).Nodup →
    (∀ di ∈ dbs, (di.retentionPolicies.map RetentionPolicyInfo.name).Nodup ∧
        ∀ rp ∈ di.retentionPolicies, 0 < rp.shardGroupDuration) →
    (∀ di ∈ dbs, ∀ rp ∈ di.retentionPolicies,
        acc.1.lookupRP di.name rp.name = some rp) →
    ((dbs.foldl (fun a di => di.retentionPolicies.foldl
        (fun a2 r => precreateStep tFrom tTo a2 di.name r) a) acc).1.index
        = acc.1.index ∧
     (dbs.foldl (fun a di => di.retentionPolicies.foldl
        (fun a2 r => precreateStep tFrom tTo a2 di.name r) a) acc).2
        = (acc.2 || dbs.any (fun di =>
            di.retentionPolicies.any (fun rp => condB rp tFrom tTo))) ∧
     (dbs.any (fun di => di.retentionPolicies.any (fun rp => condB rp tFrom tTo)) = false →
        dbs.foldl (fun a di => di.retentionPolicies.foldl
          (fun a2 r => precreateStep tFrom tTo a2 di.name r) a) acc = acc) ∧
     (∀ db2 rp2, (∀ di ∈ dbs, db2 ≠ di.name) →
        (dbs.foldl (fun a di => di.retentionPolicies.foldl
          (fun a2 r => precreateStep tFrom tTo a2 di.name r) a) acc).1.lookupRP db2 rp2
          = acc.1.lookupRP db2 rp2) ∧
     (∀ di ∈ dbs, ∀ rp ∈ di.retentionPolicies, ∃ rp1,
        (dbs.foldl (fun a di => di.retentionPolicies.foldl
          (fun a2 r => precreateStep tFrom tTo a2 di.name r) a) acc).1.lookupRP
            di.name rp.name = some rp1 ∧
        (if condB rp tFrom tTo then
          ∃ g newG, rp.shardGroups.getLast? = some g ∧ newG.deletedAt = 0 ∧
            newG.startTime ≤ g.endTime + 1 ∧ g.endTime + 1 < newG.endTime ∧
            rp1.shardGroups = insertByStart newG rp.shardGroups
         else rp1.shardGroups = rp.shardGroups))) := by
  induction dbs with
  | nil =>
    intro acc hnd hin hl
    exact ⟨rfl, by simp, fun _ => rfl, fun _ _ _ => rfl, fun di hdi => absurd hdi (by simp)⟩
  | cons di rest ih =>
    intro acc hnd hin hl
    have hnd2 : di.name ∉ rest.map DatabaseInfo.name ∧
        (rest.map DatabaseInfo.name).Nodup := by
      rw [List.map_cons, List.nodup_cons] at hnd
      exact hnd
    have hdihead := hin di (List.mem_cons_self di rest)
    obtain ⟨iidx, iflag, iid, iframe, iper⟩ :=
      precreate_foldRP tFrom tTo di.name di.retentionPolicies acc hdihead.1 hdihead.2
        (hl di (List.mem_cons_self di rest))
    have hneq : ∀ di2 ∈ rest, di2.name ≠ di.name := by
      intro di2 hdi2 hcontr
      have hmem : di2.name ∈ rest.map DatabaseInfo.name :=
        List.mem_map_of_mem DatabaseInfo.name hdi2
      rw [hcontr] at hmem
      exact hnd2.1 hmem
    rw [List.foldl_cons]
    have hl2 : ∀ di2 ∈ rest, ∀ rp ∈ di2.retentionPolicies,
        (di.retentionPolicies.foldl (fun a2 r => precreateStep tFrom tTo a2 di.name r)
          acc).1.lookupRP di2.name rp.name = some rp := by
      intro di2 hdi2 rp hrp
      rw [iframe di2.name rp.name (Or.inl (hneq di2 hdi2))]
      exact hl di2 (List.mem_cons_of_mem di hdi2) rp hrp
    obtain ⟨ihidx, ihflag, ihid, ihframe, ihper⟩ :=
      ih (di.retentionPolicies.foldl (fun a2 r => precreateStep tFrom tTo a2 di.name r) acc)
        hnd2.2 (fun d2 hd2 => hin d2 (List.mem_cons_of_mem di hd2)) hl2
    refine ⟨?_, ?_, ?_, ?_, ?_⟩
    · exact ihidx.trans iidx
    · rw [ihflag, iflag]
      simp [List.any_cons, Bool.or_assoc]
    · intro hany
      rw [List.any_cons] at hany
      have hany2 : (di.retentionPolicies.any (fun rp => condB rp tFrom tTo)) = false
          ∧ (rest.any (fun d2 =>
              d2.retentionPolicies.any (fun rp => condB rp tFrom tTo))) = false := by
        constructor
        · cases hx : di.retentionPolicies.any (fun rp => condB rp tFrom tTo) with
          | false => rfl
          | true => rw [hx] at hany; simp at hany
        · cases hx : rest.any (fun d2 =>
              d2.retentionPolicies.any (fun rp => condB rp tFrom tTo)) with
          | false => rfl
          | true => rw [hx] at hany; simp at hany
      rw [iid hany2.1]
      obtain ⟨_, _, ihid2, _, _⟩ := ih acc hnd2.2
        (fun d2 hd2 => hin d2 (List.mem_cons_of_mem di hd2))
        (fun d2 hd2 => hl d2 (List.mem_cons_of_mem di hd2))
      exact ihid2 hany2.2
    · intro db2 rp2 hav
      rw [ihframe db2 rp2 (fun d2 hd2 => hav d2 (List.mem_cons_of_mem di hd2))]
      exact iframe db2 rp2 (Or.inl (hav di (List.mem_cons_self di rest)))
    · intro d2 hd2 rp hrp
      rcases List.mem_cons.mp hd2 with h | h
      · subst h
        obtain ⟨rp1, hlk, hpay⟩ := iper rp hrp
        refine ⟨rp1, ?_, hpay⟩
        rw [ihframe d2.name rp.name (fun d3 hd3 => (hneq d3 hd3).symm)]
        exact hlk
      · exact ihper d2 h rp hrp

/-- C8: for all bounds tFrom lt tTo and every well-formed snapshot,
PrecreateShardGroups considers only the chronologically last group of
each retention policy, creates a live successor group covering the
timestamp one nanosecond past its end exactly when that group is live,
ends strictly inside the window, and no live group already covers the
successor timestamp; all creations are covered by one commit, advancing
the snapshot Index by exactly one, and when nothing is created no commit
occurs and the Index is unchanged. -/
theorem precreateShardGroups_spec (c : Client) (tFrom tTo : Nat)
    (_hft : tFrom < tTo) (hwf : wfData c.cacheData) :
    PrecreateOutcome c tFrom tTo := by
  obtain ⟨hnd, hin⟩ := hwf
  have hl0 : ∀ di ∈ c.cacheData.databases, ∀ rp ∈ di.retentionPolicies,
      ((c.cacheData, false) : Data × Bool).1.lookupRP di.name rp.name = some rp := by
    intro di hdi rp hrp
    unfold Data.lookupRP Data.database
    rw [find?_key_self DatabaseInfo.name c.cacheData.databases di hnd hdi]
    dsimp only
    rw [find?_key_self RetentionPolicyInfo.name di.retentionPolicies rp (hin di hdi).1 hrp]
  obtain ⟨hidx, hflag, hid, hframe, hper⟩ :=
    precreate_foldDB tFrom tTo c.cacheData.databases (c.cacheData, false) hnd hin hl0
  have hpre : c.PrecreateShardGroups tFrom tTo
      = (if (c.cacheData.databases.foldl (fun a di => di.retentionPolicies.foldl
          (fun a2 r => precreateStep tFrom tTo a2 di.name r) a) (c.cacheData, false)).2
         then c.commit (c.cacheData.databases.foldl (fun a di => di.retentionPolicies.foldl
          (fun a2 r => precreateStep tFrom tTo a2 di.name r) a) (c.cacheData, false)).1
         else c) := rfl
  constructor
  · intro di hdi rp hrp
    obtain ⟨rp1, hlk, hpay⟩ := hper di hdi rp hrp
    refine ⟨rp1, ?_, hpay⟩
    rw [hpre]
    cases hb : (c.cacheData.databases.foldl (fun a di => di.retentionPolicies.foldl
          (fun a2 r => precreateStep tFrom tTo a2 di.name r) a) (c.cacheData, false)).2 with
    | true =>
      rw [if_pos rfl]
      exact hlk
    | false =>
      rw [if_neg (by simp)]
      have hany : (c.cacheData.databases.any (fun di =>
          di.retentionPolicies.any (fun rp => condB rp tFrom tTo))) = false := by
        rw [hb] at hflag
        simpa using hflag.symm
      have hfix := hid hany
      rw [hfix] at hlk
      exact hlk
  · rw [hpre]
    cases hb : (c.cacheData.databases.foldl (fun a di => di.retentionPolicies.foldl
          (fun a2 r => precreateStep tFrom tTo a2 di.name r) a) (c.cacheData, false)).2 with
    | true =>
      rw [if_pos rfl]
      have hany : (c.cacheData.databases.any (fun di =>
          di.retentionPolicies.any (fun rp => condB rp tFrom tTo))) = true := by
        rw [hb] at hflag
        simpa using hflag.symm
      rw [hany]
      simp only [Client.commit]
      rw [hidx]
      simp
    | false =>
      rw [if_neg (by simp)]
      have hany : (c.cacheData.databases.any (fun di =>
          di.retentionPolicies.any (fun rp => condB rp tFrom tTo))) = false := by
        rw [hb] at hflag
        simpa using hflag.symm
      rw [hany]
      simp

theorem precreateShardGroups_spec_witness :
    (5 : Nat) < 20 ∧
    wfData ({ cacheData := { index := 1, clusterID := 0, maxNodeID := 0, maxShardGroupID := 1, maxShardID := 1, databases := [{ name := "db", defaultRetentionPolicy := "rp", retentionPolicies := [{ name := "rp", duration := 0, shardGroupDuration := 10, replicaN := 1, shardGroups := [{ id := 1, startTime := 0, endTime := 10, deletedAt := 0, shards := [] }] }] }], dataNodes := [], users := [] }, authCache := [], changedGen := 0, retentionAutoCreate := false } : Client).cacheData ∧
    PrecreateOutcome ({ cacheData := { index := 1, clusterID := 0, maxNodeID := 0, maxShardGroupID := 1, maxShardID := 1, databases := [{ name := "db", defaultRetentionPolicy := "rp", retentionPolicies := [{ name := "rp", duration := 0, shardGroupDuration := 10, replicaN := 1, shardGroups := [{ id := 1, startTime := 0, endTime := 10, deletedAt := 0, shards := [] }] }] }], dataNodes := [], users := [] }, authCache := [], changedGen := 0, retentionAutoCreate := false } : Client) 5 20 :=
  ⟨by decide, ⟨by decide, by decide⟩,
   precreateShardGroups_spec ({ cacheData := { index := 1, clusterID := 0, maxNodeID := 0, maxShardGroupID := 1, maxShardID := 1, databases := [{ name := "db", defaultRetentionPolicy := "rp", retentionPolicies := [{ name := "rp", duration := 0, shardGroupDuration := 10, replicaN := 1, shardGroups := [{ id := 1, startTime := 0, endTime := 10, deletedAt := 0, shards := [] }] }] }], dataNodes := [], users := [] }, authCache := [], changedGen := 0, retentionAutoCreate := false } : Client) 5 20 (by decide) ⟨by decide, by decide⟩⟩

end Chronus
